import Mathlib

/-!
Verification of the WordyPy bot and game engine.

A shallow embedding of `wordypy_bot2.py` (classes `Letter`,
`DisplaySpecification`, `Bot`, `GameEngine`) together with proofs about it.

Conventions of the embedding:
* a word is a `List Char`; Python string indexing `w[i]` is total-ized as
  `w.getD i 'A'` — every theorem that depends on indexing restricts to the
  5-character words of the data model, where the default is never used;
* the feedback image is a total function from pixel coordinates to the
  hex-colour string stored at that pixel; PIL's hex → RGB → hex round trip
  (parsing a `#rrggbb` colour, reading the pixel back with `getpixel`, and
  reformatting it with `Bot._tuple_to_str`) normalizes a valid 6-digit hex
  string to upper case, which we model as `pyUpper`;
* the bot inside `GameEngine.play` is modelled by the stream of guesses that
  its successive `make_guess` calls return, and `random.choice` by an
  explicitly supplied word: the engine's control flow depends on nothing else.
-/

namespace WordyPy

/-- A word of the game, as the list of its characters. -/
abbrev Word := List Char

/-- Embedding of class `Letter`: a guessed character with its two feedback
flags, both `False` at construction. -/
structure Letter where
  letter : Char
  in_word : Bool := false
  in_correct_place : Bool := false
deriving Repr, DecidableEq

/-! ## Bot: candidate filtering (`Bot.record_guess_results`) -/

/-- Embedding of `is_positive_somewhere` inside `Bot.record_guess_results`:
`any(char_in_guess == f.letter and f.is_in_word() for f in guess_results)`. -/
def posMatch (guessResults : List Letter) (c : Char) : Bool :=
  guessResults.any fun f => c == f.letter && f.in_word

/-- Embedding of the body of the inner loop of `Bot.record_guess_results`
for position `i` with feedback `fb`: `true` iff the word is not eliminated
by this position.  Rule 1: green letters; Rule 2: yellow letters
(rejected when `char_in_guess not in word or word[i] == char_in_guess`);
Rule 3: grey letters (rejected when `not is_positive_somewhere and
char_in_guess in word`). -/
def letterOk (guessResults : List Letter) (word : Word) (i : Nat) (fb : Letter) : Bool :=
  if fb.in_correct_place then
    word.getD i 'A' == fb.letter
  else if fb.in_word then
    !(!(word.contains fb.letter) || word.getD i 'A' == fb.letter)
  else
    !(!(posMatch guessResults fb.letter) && word.contains fb.letter)

/-- Embedding of the per-word loop of `Bot.record_guess_results`: the word
survives iff no feedback position eliminates it (the Python loop only ever
sets `is_still_possible` to `False`, so breaking early is equivalent to
checking all positions). -/
def isStillPossible (guessResults : List Letter) (word : Word) : Bool :=
  guessResults.enum.all fun p => letterOk guessResults word p.1 p.2

/-- Embedding of `Bot.record_guess_results` on an already-decoded feedback
list: first `if guess in self.word_list: self.word_list.remove(guess)`
(remove the first occurrence, if any), then keep exactly the words passing
all rules. -/
def record_guess_results (wordList : List Word) (guess : Word)
    (guessResults : List Letter) : List Word :=
  (wordList.erase guess).filter fun word => isStillPossible guessResults word

/-! ## Specification-side consistency predicate (for the refinement claim
about the Candidate Filter).  This follows the wording of the spec, §4.3:
a word `w` is consistent iff for every position `i` with feedback letter
`c`: if `exactMatch` then `w[i] == c`; else if `present` then `w[i] != c`
and `c` occurs in `w`; else `w` is rejected when `c` occurs in `w` unless
`c` is graded `present` or `exactMatch` at some *other* position of the
same feedback. -/

/-- Modelled from the spec (§4.3), position clause of word consistency. -/
def specLetterOk (guessResults : List Letter) (word : Word) (i : Nat) (fb : Letter) : Bool :=
  if fb.in_correct_place then
    word.getD i 'A' == fb.letter
  else if fb.in_word then
    word.getD i 'A' != fb.letter && word.contains fb.letter
  else
    !(word.contains fb.letter) ||
      guessResults.enum.any fun q =>
        q.1 != i && q.2.letter == fb.letter && (q.2.in_word || q.2.in_correct_place)

/-- Modelled from the spec (§4.3): a candidate word is consistent with a
guess feedback. -/
def specConsistent (guessResults : List Letter) (word : Word) : Bool :=
  guessResults.enum.all fun p => specLetterOk guessResults word p.1 p.2

/-! ## Scorer (`GameEngine._set_feedback`) -/

/-- One `Letter` as built by the loop body of `GameEngine._set_feedback`:
`in_correct_place` set iff `guess[j] == target_word[j]`, `in_word` set iff
`guess[j] in target_word` (whole-string membership). -/
def scoreLetter (target : Word) (j : Nat) (c : Char) : Letter :=
  { letter := c
    in_correct_place := c == target.getD j 'A'
    in_word := target.contains c }

/-- Embedding of `GameEngine._set_feedback`: a fold over the positions of
the guess accumulating the `correct` flag (initially `True`, cleared at any
position mismatch) and the appended list of `Letter`s. -/
def set_feedback (guess target : Word) : Bool × List Letter :=
  guess.enum.foldl
    (fun acc p =>
      (acc.1 && (p.2 == target.getD p.1 'A'),
       acc.2 ++ [scoreLetter target p.1 p.2]))
    (true, [])

/-! ## Feedback codec (`DisplaySpecification`, `GameEngine._render_letter`,
`GameEngine._format_results`, `Bot._process_image`) -/

/-- Embedding of class `DisplaySpecification` with its default values. -/
structure DisplaySpecification where
  block_width : Nat := 80
  block_height : Nat := 80
  space_between_letters : Nat := 5
  correct_location_color : String := "#00274C"
  incorrect_location_color : String := "#FFCB05"
  incorrect_color : String := "#D3D3D3"
  word_color : String := "#FFFFFF"

/-- The default display specification used by `GameEngine.__init__`. -/
def defaultSpec : DisplaySpecification := {}

/-- A feedback image, as the total map sending a pixel coordinate to the
hex string of the colour stored there (as read back by
`getpixel` + `Bot._tuple_to_str`). -/
abbrev PImage := Nat × Nat → String

/-- Python's `str.upper()` on a colour string, character by character
(`String.toUpper` itself is defined by well-founded recursion and does not
reduce definitionally, so we map over the underlying character list). -/
def pyUpper (s : String) : String := ⟨s.data.map Char.toUpper⟩

/-- PIL stores a `#rrggbb` colour as an RGB triple; reading the pixel back
and reformatting it with `Bot._tuple_to_str` yields the upper-cased hex
string.  We model that round trip directly on the colour string. -/
def pixelOf (c : String) : String := pyUpper c

/-- The colour choice of `GameEngine._render_letter`: start from
`incorrect_color`, override with `correct_location_color` when the letter
is in the correct place, else with `incorrect_location_color` when it is
in the word. -/
def render_letter_color (spec : DisplaySpecification) (l : Letter) : String :=
  if l.in_correct_place then spec.correct_location_color
  else if l.in_word then spec.incorrect_location_color
  else spec.incorrect_color

/-- `Image.paste` of a uniform `bw × bh` block at x-offset `loc`, y-offset 0.
The centred text glyph that `_render_letter` additionally draws is external
font rasterization (PIL `ImageDraw`/`ImageFont`) and is not modelled; the
decoder samples pixel (5, 5) of a block, away from the centred glyph. -/
def pasteBlock (img : PImage) (loc bw bh : Nat) (color : String) : PImage :=
  fun pos => if loc ≤ pos.1 ∧ pos.1 < loc + bw ∧ pos.2 < bh then color else img pos

/-- The paste loop of `GameEngine._format_results`: render each letter as a
block of its colour and paste it at `curr_loc`, advancing `curr_loc` by
`block_width + space_between_letters`. -/
def pasteLetters (spec : DisplaySpecification) :
    List Letter → Nat → PImage → PImage
  | [], _, img => img
  | l :: rest, loc, img =>
      pasteLetters spec rest (loc + spec.block_width + spec.space_between_letters)
        (pasteBlock img loc spec.block_width spec.block_height
          (pixelOf (render_letter_color spec l)))

/-- Embedding of `GameEngine._format_results`: a background-coloured canvas
with the rendered letters pasted left to right. -/
def format_results (spec : DisplaySpecification) (letters : List Letter) : PImage :=
  pasteLetters spec letters 0 (fun _ => pixelOf spec.word_color)

/-- The loop body of `Bot._process_image`: build a fresh `Letter` for the
guessed character and set its flags from the sampled pixel colour:
correct-location colour sets both flags, incorrect-location colour sets
only `in_word`, anything else leaves both `False`.  The two reference
colours are upper-cased before comparison, as in the source. -/
def decodeLetter (spec : DisplaySpecification) (px : String) (c : Char) : Letter :=
  if px == pyUpper spec.correct_location_color then
    { letter := c, in_correct_place := true, in_word := true }
  else if px == pyUpper spec.incorrect_location_color then
    { letter := c, in_word := true }
  else
    { letter := c }

/-- Embedding of `Bot._process_image`: for each position `i` of the guess,
sample the pixel at `(5 + i * (block_width + spacing), 5)` and decode it. -/
def process_image (spec : DisplaySpecification) (guess : Word) (img : PImage) :
    List Letter :=
  guess.enum.map fun p =>
    decodeLetter spec (img (5 + p.1 * (spec.block_width + spec.space_between_letters), 5)) p.2

/-! ## Game engine round loop (`GameEngine.__init__`, `GameEngine.play`) -/

/-- The instance state of `GameEngine` set by `__init__` and mutated by
`play`: the two error flags and the list of previous guesses. -/
structure EngineState where
  err_input : Bool := false
  err_guess : Bool := false
  prev_guesses : List Word := []
deriving Repr, DecidableEq

/-- Classification of the exit paths of `GameEngine.play` (the Python
method returns `None` everywhere; the constructor records which `return`
statement was taken). -/
inductive PlayOutcome where
  | inputError : PlayOutcome
  | guessError : PlayOutcome
  | won : Nat → PlayOutcome
  | exhausted : PlayOutcome
deriving Repr, DecidableEq

/-- The constant `MAX_GUESSES` of `GameEngine.play`. -/
def MAX_GUESSES : Nat := 6

/-- The per-letter validation loop of `GameEngine.play`: an error is raised
when some letter of the guess is in `unused_letters`, or the position has a
known letter (`known_letters[j] is not None`) different from the guessed
letter.  (In the source these two containers are initialized empty /
all-`None` and never updated.) -/
def guessViolatesKnown (known : List (Option Char)) (unused : List Char)
    (guess : Word) : Bool :=
  guess.enum.any fun p =>
    unused.contains p.2 ||
      (match known.getD p.1 none with
       | none => false
       | some c => p.2 != c)

/-- The round loop of `GameEngine.play` over the remaining round indices
(`range(1, MAX_GUESSES)`).  Each round: get the bot's guess; set
`err_guess` when the guess is not in the word list or repeats a previous
guess; return on `err_guess` (including one carried over from a previous
`play` call, which is never reset); append the guess to `prev_guesses`; run
the per-letter validation; score with `_set_feedback`; return `won` on a
correct guess, else continue.  The feedback image and the bot's
`record_guess_results` call do not affect the engine's state. -/
def playLoop (wordList : List Word) (target : Word) (bot : Nat → Word)
    (known : List (Option Char)) (unused : List Char) :
    List Nat → EngineState → PlayOutcome × EngineState
  | [], st => (PlayOutcome.exhausted, st)
  | i :: rest, st =>
    let guess := bot i
    let st1 : EngineState :=
      if !(wordList.contains guess) then { st with err_guess := true }
      else if st.prev_guesses.contains guess then { st with err_guess := true }
      else st
    if st1.err_guess then (PlayOutcome.guessError, st1)
    else
      let st2 : EngineState := { st1 with prev_guesses := st1.prev_guesses ++ [guess] }
      if guessViolatesKnown known unused guess then
        (PlayOutcome.guessError, { st2 with err_guess := true })
      else
        if (set_feedback guess target).1 then (PlayOutcome.won i, st2)
        else playLoop wordList target bot known unused rest st2

/-- Embedding of `GameEngine.play`.  `wordList` is the word list file after
the per-line `strip().upper()`; `randomWord` models the `random.choice`
outcome used when no target word is supplied; `bot` is the stream of
guesses returned by the bot's successive `make_guess` calls.
`known_letters` is initialized to five `None`s and `unused_letters` to the
empty set, exactly as in the source (where they are never updated). -/
def play (wordList : List Word) (targetWordArg : Option Word) (randomWord : Word)
    (bot : Nat → Word) (st : EngineState) : PlayOutcome × EngineState :=
  let known : List (Option Char) := [none, none, none, none, none]
  let unused : List Char := []
  let rounds := List.range' 1 (MAX_GUESSES - 1)
  match targetWordArg with
  | none => playLoop wordList (randomWord.map Char.toUpper) bot known unused rounds st
  | some t =>
      let target := t.map Char.toUpper
      if !(wordList.contains target) then
        (PlayOutcome.inputError, { st with err_input := true })
      else playLoop wordList target bot known unused rounds st

/-! ## Candidate Filter: code = spec (refinement lemmas for the filter) -/

lemma posMatch_eq_guard (gr : List Letter) (i : Nat) (hi : i < gr.length)
    (hinv : ∀ f ∈ gr, f.in_correct_place = true → f.in_word = true)
    (hw : gr[i].in_word = false) :
    posMatch gr gr[i].letter =
      gr.enum.any fun q =>
        q.1 != i && q.2.letter == gr[i].letter && (q.2.in_word || q.2.in_correct_place) := by
  apply Bool.eq_iff_iff.mpr
  rw [posMatch, List.any_eq_true, List.any_eq_true]
  constructor
  · rintro ⟨f, hf, hpf⟩
    have hletter : gr[i].letter = f.letter := by
      have := (Bool.and_eq_true _ _).mp hpf
      exact eq_of_beq this.1
    have hfw : f.in_word = true := ((Bool.and_eq_true _ _).mp hpf).2
    obtain ⟨j, hj, hgj⟩ := List.mem_iff_getElem.mp hf
    refine ⟨(j, gr[j]), List.mem_enum_iff_getElem?.mpr (by simp [hj]), ?_⟩
    have hji : j ≠ i := by
      intro hcontra
      subst hcontra
      rw [hgj] at hw
      rw [hfw] at hw
      exact Bool.true_eq_false.mp hw
    simp [hgj, hji, hfw, hletter]
  · rintro ⟨⟨j, f⟩, hq, hpq⟩
    have hf : gr[j]? = some f := List.mem_enum_iff_getElem?.mp hq
    have hjlen : j < gr.length := by
      by_contra hge
      rw [List.getElem?_eq_none (Nat.le_of_not_lt hge)] at hf
      exact Option.noConfusion hf
    have hgj : gr[j] = f := by
      have := List.getElem?_eq_getElem hjlen
      rw [this] at hf
      exact Option.some.inj hf
    simp only [Bool.and_eq_true, Bool.or_eq_true] at hpq
    have hfmem : f ∈ gr := hgj ▸ List.getElem_mem hjlen
    refine ⟨f, hfmem, ?_⟩
    have hletter : f.letter = gr[i].letter := eq_of_beq hpq.1.2
    have hfw : f.in_word = true := by
      rcases hpq.2 with h | h
      · exact h
      · exact hinv f hfmem h
    simp [hletter, hfw]

lemma letterOk_eq_spec (gr : List Letter) (word : Word)
    (hinv : ∀ f ∈ gr, f.in_correct_place = true → f.in_word = true)
    (i : Nat) (hi : i < gr.length) :
    letterOk gr word i gr[i] = specLetterOk gr word i gr[i] := by
  unfold letterOk specLetterOk
  by_cases hcp : gr[i].in_correct_place = true
  · simp [hcp]
  · have hcp' : gr[i].in_correct_place = false := Bool.eq_false_iff.mpr hcp
    by_cases hiw : gr[i].in_word = true
    · rw [hcp', hiw]
      simp only [Bool.false_eq_true, if_false, if_true]
      have hbne : (word.getD i 'A' != gr[i].letter)
          = !(word.getD i 'A' == gr[i].letter) := rfl
      rw [hbne]
      cases hc : word.contains gr[i].letter <;>
        cases hg : (word.getD i 'A' == gr[i].letter) <;> rfl
    · have hiw' : gr[i].in_word = false := Bool.eq_false_iff.mpr hiw
      rw [hcp', hiw']
      simp only [Bool.false_eq_true, if_false]
      rw [← posMatch_eq_guard gr i hi hinv hiw']
      cases hp : posMatch gr gr[i].letter <;>
        cases hc : word.contains gr[i].letter <;>
          simp [hp, hc]

lemma isStillPossible_eq_spec (gr : List Letter) (word : Word)
    (hinv : ∀ f ∈ gr, f.in_correct_place = true → f.in_word = true) :
    isStillPossible gr word = specConsistent gr word := by
  unfold isStillPossible specConsistent
  apply Bool.eq_iff_iff.mpr
  simp only [List.all_eq_true, List.forall_mem_enum]
  constructor
  · intro h i hi
    rw [← letterOk_eq_spec gr word hinv i hi]
    exact h i hi
  · intro h i hi
    rw [letterOk_eq_spec gr word hinv i hi]
    exact h i hi

/-! ## Scorer characterization lemmas -/

lemma set_feedback_foldl (target : Word) (ps : List (Nat × Char)) (b : Bool)
    (ls : List Letter) :
    ps.foldl
      (fun acc p =>
        (acc.1 && (p.2 == target.getD p.1 'A'),
         acc.2 ++ [scoreLetter target p.1 p.2]))
      (b, ls)
      = (b && ps.all fun p => p.2 == target.getD p.1 'A',
         ls ++ ps.map fun p => scoreLetter target p.1 p.2) := by
  induction ps generalizing b ls with
  | nil => simp
  | cons p ps ih =>
    rw [List.foldl_cons, ih]
    simp [Bool.and_assoc]

lemma set_feedback_eq (guess target : Word) :
    set_feedback guess target
      = (guess.enum.all fun p => p.2 == target.getD p.1 'A',
         guess.enum.map fun p => scoreLetter target p.1 p.2) := by
  unfold set_feedback
  rw [set_feedback_foldl]
  simp

lemma set_feedback_snd_length (guess target : Word) :
    (set_feedback guess target).2.length = guess.length := by
  rw [set_feedback_eq]
  simp

lemma mem_set_feedback_snd {guess target : Word} {l : Letter} :
    l ∈ (set_feedback guess target).2 ↔
      ∃ i, ∃ _ : i < guess.length, l = scoreLetter target i (guess.getD i 'A') := by
  rw [set_feedback_eq]
  constructor
  · intro h
    obtain ⟨x, hx, hfx⟩ := List.mem_map.mp h
    have hex : ∃ x ∈ guess.enum, scoreLetter target x.1 x.2 = l := ⟨x, hx, hfx⟩
    obtain ⟨i, hi, hp⟩ := List.exists_mem_enum.mp hex
    refine ⟨i, hi, ?_⟩
    rw [← hp, List.getD_eq_getElem _ _ hi]
  · rintro ⟨i, hi, rfl⟩
    have hp : scoreLetter target i guess[i] = scoreLetter target i (guess.getD i 'A') := by
      rw [List.getD_eq_getElem _ _ hi]
    exact List.mem_map.mpr
      ((@List.exists_mem_enum Char guess fun x =>
          scoreLetter target x.1 x.2 = scoreLetter target i (guess.getD i 'A')).mpr
        ⟨i, hi, hp⟩)

lemma set_feedback_snd_getElem? (guess target : Word) (i : Nat)
    (hi : i < guess.length) :
    (set_feedback guess target).2[i]? = some (scoreLetter target i (guess.getD i 'A')) := by
  rw [set_feedback_eq]
  simp only [List.getElem?_map, List.getElem?_enum]
  rw [List.getElem?_eq_getElem hi, List.getD_eq_getElem _ _ hi]
  rfl

/-! ## Claim theorems -/

/-- C1: For every duplicate-free candidate set of 5-letter words, guess
word, and 5-entry feedback satisfying the feedback invariant
`in_correct_place ⟹ in_word`, `Bot.record_guess_results` returns exactly
the subset of the candidates, excluding the guess itself, that are
consistent with the feedback in the sense of the spec (§4.3): an
exact-match position must carry the feedback letter; a present position
must differ from the feedback letter, which must occur somewhere in the
word; an absent letter occurring in the word eliminates it unless that
letter is graded present or exact-match at some other position of the same
feedback. -/
theorem c1_filter_is_spec_consistent_subset
    (wordList : List Word) (guess : Word) (guessResults : List Letter)
    (hnd : wordList.Nodup)
    (hinv : ∀ f ∈ guessResults, f.in_correct_place = true → f.in_word = true)
    (hlen : guessResults.length = 5)
    (hwords : ∀ v ∈ wordList, v.length = 5)
    (w : Word) :
    w ∈ record_guess_results wordList guess guessResults ↔
      w ∈ wordList ∧ w ≠ guess ∧ specConsistent guessResults w = true := by
  unfold record_guess_results
  simp only [List.mem_filter]
  rw [hnd.mem_erase_iff, isStillPossible_eq_spec _ _ hinv]
  tauto

/-- Witness for C1: the spec's own scenario — target `CRANE`, guess
`CRATE`, candidates `{CRANE, CRATE, GRAPE}` — retains `CRANE`. -/
theorem c1_filter_witness :
    ['C','R','A','N','E'] ∈ record_guess_results
      [['C','R','A','N','E'], ['C','R','A','T','E'], ['G','R','A','P','E']]
      ['C','R','A','T','E']
      [⟨'C', true, true⟩, ⟨'R', true, true⟩, ⟨'A', true, true⟩,
       ⟨'T', false, false⟩, ⟨'E', true, true⟩] :=
  (c1_filter_is_spec_consistent_subset _ _ _ (by decide) (by decide) (by decide)
    (by decide) _).mpr (by decide)

/-- C4: For every pair of 5-character words, the letter the Scorer
produces at position `i` carries `in_correct_place` exactly when
`guess[i] == target[i]` and `in_word` exactly when `guess[i]` occurs
anywhere in the whole target — a membership test that is neither
position-aware nor multiset-aware. -/
theorem c4_scorer_per_position (guess target : Word)
    (hg : guess.length = 5) (ht : target.length = 5) (i : Nat) (hi : i < 5) :
    (set_feedback guess target).2[i]? =
      some { letter := guess.getD i 'A'
             in_correct_place := guess.getD i 'A' == target.getD i 'A'
             in_word := target.contains (guess.getD i 'A') } := by
  rw [set_feedback_snd_getElem? guess target i (by omega)]
  rfl

/-- Witness for C4: target `ALARM`, guess `ARRAY` — the target has a
single `R` but both guessed `R`s (positions 1 and 2) get `in_word = true`,
exhibiting the non-multiset-aware membership test. -/
theorem c4_scorer_witness :
    (set_feedback ['A','R','R','A','Y'] ['A','L','A','R','M']).2[1]? =
        some { letter := 'R', in_word := true, in_correct_place := false } ∧
    (set_feedback ['A','R','R','A','Y'] ['A','L','A','R','M']).2[2]? =
        some { letter := 'R', in_word := true, in_correct_place := false } := by
  have h1 := c4_scorer_per_position ['A','R','R','A','Y'] ['A','L','A','R','M']
    (by decide) (by decide) 1 (by decide)
  have h2 := c4_scorer_per_position ['A','R','R','A','Y'] ['A','L','A','R','M']
    (by decide) (by decide) 2 (by decide)
  rw [h1, h2]
  exact ⟨by decide, by decide⟩

/-- C5: The Boolean first component of `GameEngine._set_feedback` is
`True` iff every produced letter has `in_correct_place = True`; in
particular, scoring a guess equal to the target reports an exact match
with every position's flag set. -/
theorem c5_is_exact_match_iff (guess target : Word) :
    ((set_feedback guess target).1 = true ↔
      ∀ l ∈ (set_feedback guess target).2, l.in_correct_place = true) ∧
    (guess = target →
      (set_feedback guess target).1 = true ∧
      ∀ l ∈ (set_feedback guess target).2, l.in_correct_place = true) := by
  have hfst : (set_feedback guess target).1
      = (guess.enum.all fun p => p.2 == target.getD p.1 'A') := by
    rw [set_feedback_eq]
  constructor
  · rw [hfst, List.all_eq_true]
    constructor
    · intro h l hl
      obtain ⟨i, hi, rfl⟩ := mem_set_feedback_snd.mp hl
      have hp : (i, guess[i]) ∈ guess.enum :=
        List.mem_enum_iff_getElem?.mpr (List.getElem?_eq_getElem hi)
      have hb := h (i, guess[i]) hp
      show (guess.getD i 'A' == target.getD i 'A') = true
      rw [List.getD_eq_getElem _ _ hi]
      exact hb
    · intro h p hp
      have h1 : guess[p.1]? = some p.2 := List.mem_enum_iff_getElem?.mp hp
      have hlt : p.1 < guess.length := by
        by_contra hge
        rw [List.getElem?_eq_none (Nat.le_of_not_lt hge)] at h1
        exact Option.noConfusion h1
      have hb := h (scoreLetter target p.1 (guess.getD p.1 'A'))
        (mem_set_feedback_snd.mpr ⟨p.1, hlt, rfl⟩)
      have h2 : guess.getD p.1 'A' = p.2 := by
        rw [List.getD_eq_getElem?_getD, h1]
        rfl
      show (p.2 == target.getD p.1 'A') = true
      rw [← h2]
      exact hb
  · rintro rfl
    refine ⟨?_, ?_⟩
    · rw [hfst, List.all_eq_true]
      intro p hp
      have h1 : guess[p.1]? = some p.2 := List.mem_enum_iff_getElem?.mp hp
      have h2 : guess.getD p.1 'A' = p.2 := by
        rw [List.getD_eq_getElem?_getD, h1]
        rfl
      rw [h2]
      exact beq_self_eq_true p.2
    · intro l hl
      obtain ⟨i, hi, rfl⟩ := mem_set_feedback_snd.mp hl
      show (guess.getD i 'A' == guess.getD i 'A') = true
      exact beq_self_eq_true _

/-- Witness for C5: scoring `STATE` against itself reports an exact match. -/
theorem c5_witness :
    (set_feedback ['S','T','A','T','E'] ['S','T','A','T','E']).1 = true :=
  ((c5_is_exact_match_iff ['S','T','A','T','E'] ['S','T','A','T','E']).2 rfl).1

/-- Every letter the image decoder builds satisfies the feedback
invariant: `in_correct_place` is only ever set together with `in_word`. -/
lemma decodeLetter_invariant (spec : DisplaySpecification) (px : String) (c : Char) :
    (decodeLetter spec px c).in_correct_place = true →
      (decodeLetter spec px c).in_word = true := by
  unfold decodeLetter
  split_ifs <;> simp

/-- C6: Feedback invariants: every letter produced by the Scorer on
5-character words satisfies `in_correct_place ⟹ in_word` and
`in_word ⟹ the letter occurs in the target`; every letter produced by the
image decoder satisfies `in_correct_place ⟹ in_word`. -/
theorem c6_letter_invariants :
    (∀ guess target : Word, guess.length = 5 → target.length = 5 →
      ∀ l ∈ (set_feedback guess target).2,
        (l.in_correct_place = true → l.in_word = true) ∧
        (l.in_word = true → target.contains l.letter = true)) ∧
    (∀ spec : DisplaySpecification, ∀ guess : Word, ∀ img : PImage,
      ∀ l ∈ process_image spec guess img,
        l.in_correct_place = true → l.in_word = true) := by
  constructor
  · intro guess target hg ht l hl
    obtain ⟨i, hi, rfl⟩ := mem_set_feedback_snd.mp hl
    constructor
    · intro hicp
      have hch : guess.getD i 'A' = target.getD i 'A' := eq_of_beq hicp
      show target.contains (guess.getD i 'A') = true
      rw [hch, List.getD_eq_getElem _ _ (by omega : i < target.length)]
      exact List.elem_eq_true_of_mem (List.getElem_mem _)
    · exact fun h => h
  · intro spec guess img l hl
    unfold process_image at hl
    obtain ⟨p, hp, rfl⟩ := List.mem_map.mp hl
    exact decodeLetter_invariant spec _ p.2

/-- Witness for C6: in the `CRATE`-vs-`CRANE` score, the exact-match
letter `E` is also flagged in-word, and `E` indeed occurs in `CRANE`. -/
theorem c6_witness :
    (Letter.mk 'E' true true).in_word = true ∧
    (['C','R','A','N','E'] : Word).contains 'E' = true := by
  have h := c6_letter_invariants.1 ['C','R','A','T','E'] ['C','R','A','N','E']
    (by decide) (by decide) ⟨'E', true, true⟩ (by decide)
  exact ⟨h.1 rfl, h.2 rfl⟩

/-- C7 counterexample: As stated, the soundness claim fails when the
guess *is* the target: `Bot.record_guess_results` removes the just-played
guess, so a target `CRANE` present in the candidate set does not survive
filtering against the feedback of guessing `CRANE` itself. -/
theorem c7_counterexample :
    ['C','R','A','N','E'] ∈ [(['C','R','A','N','E'] : Word)] ∧
    record_guess_results [['C','R','A','N','E']] ['C','R','A','N','E']
        (set_feedback ['C','R','A','N','E'] ['C','R','A','N','E']).2 = [] := by
  decide

/-- C7 amended: For every candidate set, target, and guess *different
from the target*, if the target is in the candidate set before filtering
then it remains in it after `Bot.record_guess_results` is applied with the
feedback `GameEngine._set_feedback` derives from that target. -/
theorem c7_target_survives_filter (wordList : List Word) (guess target : Word)
    (hne : guess ≠ target) (hmem : target ∈ wordList) :
    target ∈ record_guess_results wordList guess (set_feedback guess target).2 := by
  unfold record_guess_results
  rw [List.mem_filter]
  refine ⟨(List.mem_erase_of_ne fun h => hne h.symm).mpr hmem, ?_⟩
  unfold isStillPossible
  rw [List.all_eq_true, List.forall_mem_enum]
  intro i hi
  have hig : i < guess.length := by
    have := set_feedback_snd_length guess target
    omega
  have hget : (set_feedback guess target).2[i] = scoreLetter target i (guess.getD i 'A') := by
    have h := set_feedback_snd_getElem? guess target i hig
    rw [List.getElem?_eq_getElem hi] at h
    exact Option.some.inj h
  rw [hget]
  unfold letterOk scoreLetter
  dsimp only
  by_cases hicp : (guess.getD i 'A' == target.getD i 'A') = true
  · rw [if_pos hicp]
    have := eq_of_beq hicp
    rw [this]
    exact beq_self_eq_true _
  · rw [if_neg hicp]
    by_cases hiw : target.contains (guess.getD i 'A') = true
    · rw [if_pos hiw]
      have hne' : ¬target.getD i 'A' = guess.getD i 'A' := by
        intro h
        exact hicp (beq_iff_eq.mpr h.symm)
      have hbeq : (target.getD i 'A' == guess.getD i 'A') = false := by
        cases hb : (target.getD i 'A' == guess.getD i 'A') with
        | false => rfl
        | true => exact absurd (eq_of_beq hb) hne'
      rw [hiw, hbeq]
      rfl
    · rw [if_neg hiw]
      have hiw' : target.contains (guess.getD i 'A') = false := Bool.eq_false_iff.mpr hiw
      rw [hiw']
      cases posMatch (set_feedback guess target).2 (guess.getD i 'A') <;> rfl

/-- Witness for C7 (amended): `CRANE` survives filtering the spec scenario
candidate set against the score of guessing `CRATE`. -/
theorem c7_witness :
    ['C','R','A','N','E'] ∈ record_guess_results
      [['C','R','A','N','E'], ['C','R','A','T','E'], ['G','R','A','P','E']]
      ['C','R','A','T','E']
      (set_feedback ['C','R','A','T','E'] ['C','R','A','N','E']).2 :=
  c7_target_survives_filter _ _ _ (by decide) (by decide)

/-- C8: For every duplicate-free candidate set, guess, and feedback,
the filtered list is a subset of the input candidates, its length never
exceeds the input length, and the just-played guess is never a member of
the result. -/
theorem c8_filter_shrinks (wordList : List Word) (guess : Word)
    (guessResults : List Letter) (hnd : wordList.Nodup) :
    (∀ w ∈ record_guess_results wordList guess guessResults, w ∈ wordList) ∧
    (record_guess_results wordList guess guessResults).length ≤ wordList.length ∧
    guess ∉ record_guess_results wordList guess guessResults := by
  refine ⟨?_, ?_, ?_⟩
  · intro w hw
    unfold record_guess_results at hw
    exact List.Sublist.mem (List.mem_of_mem_filter hw) (List.erase_sublist _ _)
  · unfold record_guess_results
    calc ((wordList.erase guess).filter fun word => isStillPossible guessResults word).length
        ≤ (wordList.erase guess).length := List.length_filter_le _ _
      _ ≤ wordList.length := (List.erase_sublist _ _).length_le
  · intro hmem
    unfold record_guess_results at hmem
    have h1 := List.mem_of_mem_filter hmem
    rw [hnd.mem_erase_iff] at h1
    exact h1.1 rfl

/-- Witness for C8: a played guess does not reappear after filtering. -/
theorem c8_witness :
    ['D','R','I','V','E'] ∉ record_guess_results
      [['D','R','I','V','E'], ['D','O','G','G','Y']] ['D','R','I','V','E'] [] :=
  (c8_filter_shrinks _ _ _ (by decide)).2.2

/-! ## Codec round-trip lemmas -/

lemma pasteLetters_lt (spec : DisplaySpecification) (letters : List Letter)
    (loc : Nat) (img : PImage) (x y : Nat) (hx : x < loc) :
    pasteLetters spec letters loc img (x, y) = img (x, y) := by
  induction letters generalizing loc img with
  | nil => rfl
  | cons l rest ih =>
    simp only [pasteLetters]
    rw [ih (loc + spec.block_width + spec.space_between_letters) _ (by omega)]
    unfold pasteBlock
    rw [if_neg]
    intro hcond
    omega

lemma pasteLetters_sample (spec : DisplaySpecification)
    (h5w : 5 < spec.block_width) (h5h : 5 < spec.block_height)
    (letters : List Letter) (i : Nat) (hi : i < letters.length)
    (loc : Nat) (img : PImage) :
    pasteLetters spec letters loc img
      (loc + 5 + i * (spec.block_width + spec.space_between_letters), 5)
      = pixelOf (render_letter_color spec letters[i]) := by
  induction letters generalizing i loc img with
  | nil => exact absurd hi (by simp)
  | cons l rest ih =>
    cases i with
    | zero =>
      simp only [pasteLetters]
      rw [pasteLetters_lt _ _ _ _ _ _ (by omega)]
      unfold pasteBlock
      rw [if_pos (by omega)]
      rfl
    | succ i =>
      simp only [pasteLetters]
      have harith :
          loc + 5 + (i + 1) * (spec.block_width + spec.space_between_letters)
            = (loc + spec.block_width + spec.space_between_letters) + 5
                + i * (spec.block_width + spec.space_between_letters) := by
        ring
      rw [harith]
      exact ih i (by simpa using hi) _ _

/-- Decoding the colour that `_render_letter` chose for a letter rebuilds
that letter, provided the letter satisfies the feedback invariant
(`in_correct_place` never set without `in_word`). -/
lemma decode_render (l : Letter)
    (hinv : l.in_correct_place = true → l.in_word = true) :
    decodeLetter defaultSpec (pixelOf (render_letter_color defaultSpec l)) l.letter
      = l := by
  obtain ⟨c, iw, icp⟩ := l
  cases icp with
  | true =>
    have hiw : iw = true := hinv rfl
    subst hiw
    show decodeLetter defaultSpec (pixelOf "#00274C") c
      = { letter := c, in_word := true, in_correct_place := true }
    simp only [decodeLetter]
    rw [if_pos (by decide)]
  | false =>
    cases iw with
    | true =>
      show decodeLetter defaultSpec (pixelOf "#FFCB05") c
        = { letter := c, in_word := true, in_correct_place := false }
      simp only [decodeLetter]
      rw [if_neg (by decide), if_pos (by decide)]
    | false =>
      show decodeLetter defaultSpec (pixelOf "#D3D3D3") c
        = { letter := c, in_word := false, in_correct_place := false }
      simp only [decodeLetter]
      rw [if_neg (by decide), if_neg (by decide)]

/-- C9: Round trip of the feedback codec at the default display
specification: decoding (`Bot._process_image`) the image produced by
encoding (`GameEngine._format_results` over `_render_letter`) a 5-letter
feedback, each letter in one of the three feedback states (exact /
present / absent, i.e. satisfying `in_correct_place ⟹ in_word`),
reproduces the feedback exactly. -/
theorem c9_codec_roundtrip (letters : List Letter) (hlen : letters.length = 5)
    (hinv : ∀ l ∈ letters, l.in_correct_place = true → l.in_word = true) :
    process_image defaultSpec (letters.map Letter.letter)
      (format_results defaultSpec letters) = letters := by
  apply List.ext_getElem?
  intro i
  unfold process_image
  rw [List.getElem?_map, List.getElem?_enum, List.getElem?_map]
  by_cases hi : i < letters.length
  · rw [List.getElem?_eq_getElem hi]
    simp only [Option.map_some']
    have hsample :
        format_results defaultSpec letters
          (5 + i * (defaultSpec.block_width + defaultSpec.space_between_letters), 5)
          = pixelOf (render_letter_color defaultSpec letters[i]) := by
      unfold format_results
      have h := pasteLetters_sample defaultSpec (by decide) (by decide) letters i hi 0
        (fun _ => pixelOf defaultSpec.word_color)
      have harith :
          (0 : Nat) + 5 + i * (defaultSpec.block_width + defaultSpec.space_between_letters)
            = 5 + i * (defaultSpec.block_width + defaultSpec.space_between_letters) := by
        omega
      rw [harith] at h
      exact h
    rw [hsample, decode_render _ (hinv _ (List.getElem_mem hi))]
  · rw [List.getElem?_eq_none (Nat.le_of_not_lt hi)]
    rfl

/-- Witness for C9: a feedback mixing all three states round-trips. -/
theorem c9_witness :
    process_image defaultSpec
      (([⟨'A', true, true⟩, ⟨'B', true, false⟩, ⟨'C', false, false⟩,
         ⟨'D', true, false⟩, ⟨'E', true, true⟩] : List Letter).map Letter.letter)
      (format_results defaultSpec
        [⟨'A', true, true⟩, ⟨'B', true, false⟩, ⟨'C', false, false⟩,
         ⟨'D', true, false⟩, ⟨'E', true, true⟩])
      = [⟨'A', true, true⟩, ⟨'B', true, false⟩, ⟨'C', false, false⟩,
         ⟨'D', true, false⟩, ⟨'E', true, true⟩] :=
  c9_codec_roundtrip _ (by decide) (by decide)

/-! ## Engine round-loop lemmas -/

lemma not_mem_of_contains_eq_false {l : List Word} {a : Word}
    (h : l.contains a = false) : a ∉ l := fun hmem => by
  have h2 : l.contains a = true := List.elem_eq_true_of_mem hmem
  rw [h2] at h
  exact Bool.noConfusion h

lemma playLoop_state (wordList : List Word) (target : Word) (bot : Nat → Word)
    (known : List (Option Char)) (unused : List Char) :
    ∀ (rounds : List Nat) (st : EngineState),
      ∃ tail : List Word,
        (playLoop wordList target bot known unused rounds st).2.prev_guesses
            = st.prev_guesses ++ tail ∧
        tail.length ≤ rounds.length ∧
        (∀ g ∈ tail, g ∉ st.prev_guesses) ∧
        (playLoop wordList target bot known unused rounds st).2.err_input
            = st.err_input ∧
        (st.err_guess = true →
          (playLoop wordList target bot known unused rounds st).2.err_guess = true) := by
  intro rounds
  induction rounds with
  | nil =>
    intro st
    exact ⟨[], by simp [playLoop], by simp, by simp, by simp [playLoop],
      fun h => by simp [playLoop, h]⟩
  | cons i rest ih =>
    intro st
    by_cases hm1 : bot i ∈ wordList
    · by_cases hm2 : bot i ∈ st.prev_guesses
      · refine ⟨[], ?_, ?_, ?_, ?_, ?_⟩ <;> simp [playLoop, hm1, hm2]
      · by_cases hcE : st.err_guess = true
        · refine ⟨[], ?_, ?_, ?_, ?_, ?_⟩ <;> simp [playLoop, hm1, hm2, hcE]
        · have hcE' : st.err_guess = false := Bool.eq_false_iff.mpr hcE
          by_cases hc3 : guessViolatesKnown known unused (bot i) = true
          · refine ⟨[bot i], ?_, ?_, ?_, ?_, ?_⟩ <;>
              simp [playLoop, hm1, hm2, hcE', hc3]
          · have hc3' : guessViolatesKnown known unused (bot i) = false :=
              Bool.eq_false_iff.mpr hc3
            by_cases hc4 : (set_feedback (bot i) target).1 = true
            · refine ⟨[bot i], ?_, ?_, ?_, ?_, ?_⟩ <;>
                simp [playLoop, hm1, hm2, hcE', hc3', hc4]
            · have hc4' : (set_feedback (bot i) target).1 = false :=
                Bool.eq_false_iff.mpr hc4
              have hred : playLoop wordList target bot known unused (i :: rest) st
                  = playLoop wordList target bot known unused rest
                      { st with prev_guesses := st.prev_guesses ++ [bot i] } := by
                simp [playLoop, hm1, hm2, hcE', hc3', hc4']
              obtain ⟨tail', h1, h2, h3, h4, h5⟩ :=
                ih { st with prev_guesses := st.prev_guesses ++ [bot i] }
              refine ⟨bot i :: tail', ?_, ?_, ?_, ?_, ?_⟩
              · rw [hred, h1]
                simp
              · simp only [List.length_cons]
                omega
              · intro g hg
                rw [List.mem_cons] at hg
                rcases hg with rfl | hg
                · exact hm2
                · intro hmem
                  exact h3 g hg (by simp [hmem])
              · rw [hred]
                exact h4
              · exact fun hE => absurd hE hcE
    · refine ⟨[], ?_, ?_, ?_, ?_, ?_⟩ <;> simp [playLoop, hm1]

lemma play_state (wordList : List Word) (twa : Option Word) (randomWord : Word)
    (bot : Nat → Word) (st : EngineState) :
    ∃ tail : List Word,
      (play wordList twa randomWord bot st).2.prev_guesses
          = st.prev_guesses ++ tail ∧
      tail.length ≤ MAX_GUESSES - 1 ∧
      (∀ g ∈ tail, g ∉ st.prev_guesses) ∧
      (st.err_input = true →
        (play wordList twa randomWord bot st).2.err_input = true) ∧
      (st.err_guess = true →
        (play wordList twa randomWord bot st).2.err_guess = true) := by
  cases twa with
  | none =>
    obtain ⟨tail, h1, h2, h3, h4, h5⟩ :=
      playLoop_state wordList (randomWord.map Char.toUpper) bot
        [none, none, none, none, none] [] (List.range' 1 (MAX_GUESSES - 1)) st
    exact ⟨tail, h1, by simpa using h2, h3, fun h => by rw [play, h4]; exact h, h5⟩
  | some t =>
    by_cases hcw : wordList.contains (t.map Char.toUpper) = true
    · obtain ⟨tail, h1, h2, h3, h4, h5⟩ :=
        playLoop_state wordList (t.map Char.toUpper) bot
          [none, none, none, none, none] [] (List.range' 1 (MAX_GUESSES - 1)) st
      refine ⟨tail, ?_, by simpa using h2, h3, ?_, ?_⟩
      · rw [play]
        simp only [hcw, Bool.not_true, Bool.false_eq_true, if_false]
        exact h1
      · intro h
        rw [play]
        simp only [hcw, Bool.not_true, Bool.false_eq_true, if_false]
        rw [h4]
        exact h
      · intro h
        rw [play]
        simp only [hcw, Bool.not_true, Bool.false_eq_true, if_false]
        exact h5 h
    · have hcw' : wordList.contains (t.map Char.toUpper) = false :=
        Bool.eq_false_iff.mpr hcw
      have hsimp : play wordList (some t) randomWord bot st
          = (PlayOutcome.inputError, { st with err_input := true }) := by
        simp [play, not_mem_of_contains_eq_false hcw']
      exact ⟨[], by rw [hsimp]; simp, by simp, by simp,
        fun h => by rw [hsimp], fun h => by rw [hsimp]; exact h⟩

/-- C2, code bug: `GameEngine.play` sets `MAX_GUESSES = 6` but its
loop `for i in range(1, MAX_GUESSES)` runs only rounds 1..5: on every run
at most `MAX_GUESSES - 1 = 5` guesses are recorded, and a concrete game in
which the bot never matches the target ends `exhausted` after exactly 5
rounds, not 6. -/
theorem c2_round_limit_is_five :
    MAX_GUESSES = 6 ∧
    (∀ (wordList : List Word) (twa : Option Word) (randomWord : Word)
        (bot : Nat → Word) (st : EngineState),
      (play wordList twa randomWord bot st).2.prev_guesses.length
        ≤ st.prev_guesses.length + (MAX_GUESSES - 1)) ∧
    play
      [['D','O','G','G','Y'], ['D','R','I','V','E'], ['D','A','D','D','Y'],
       ['F','I','E','L','D'], ['S','T','A','T','E'], ['C','R','A','N','E']]
      (some ['D','O','G','G','Y']) []
      (fun i =>
        [['D','R','I','V','E'], ['D','A','D','D','Y'], ['F','I','E','L','D'],
         ['S','T','A','T','E'], ['C','R','A','N','E']].getD (i - 1) [])
      { err_input := false, err_guess := false, prev_guesses := [] }
      = (PlayOutcome.exhausted,
         { err_input := false, err_guess := false,
           prev_guesses :=
             [['D','R','I','V','E'], ['D','A','D','D','Y'], ['F','I','E','L','D'],
              ['S','T','A','T','E'], ['C','R','A','N','E']] }) := by
  refine ⟨rfl, ?_, by decide⟩
  intro wordList twa randomWord bot st
  obtain ⟨tail, h1, h2, _, _, _⟩ := play_state wordList twa randomWord bot st
  rw [h1, List.length_append]
  omega

/-- C3, code bug: The absent-letter and known-position validation of
`GameEngine.play` is dead code: `unused_letters` and `known_letters` are
initialized empty / all-`None` and never updated, so the check never
fires.  Concretely, with target `STATE`: round 1 `DRIVE` grades `D`, `R`,
`I`, `V` absent and establishes `E` exact at position 4, yet round 2's
guess `DOGGY` — which reuses the absent `D` and puts `Y` where `E` is
known — is accepted and scored, and the game runs to exhaustion with no
guess-validation error. -/
theorem c3_absent_letter_validation_never_fires :
    (∀ guess : Word,
      guessViolatesKnown [none, none, none, none, none] [] guess = false) ∧
    (set_feedback ['D','R','I','V','E'] ['S','T','A','T','E']).2
      = [⟨'D', false, false⟩, ⟨'R', false, false⟩, ⟨'I', false, false⟩,
         ⟨'V', false, false⟩, ⟨'E', true, true⟩] ∧
    play
      [['S','T','A','T','E'], ['D','R','I','V','E'], ['D','O','G','G','Y'],
       ['F','I','E','L','D'], ['D','A','D','D','Y'], ['C','A','N','D','Y']]
      (some ['S','T','A','T','E']) []
      (fun i =>
        [['D','R','I','V','E'], ['D','O','G','G','Y'], ['F','I','E','L','D'],
         ['D','A','D','D','Y'], ['C','A','N','D','Y']].getD (i - 1) [])
      { err_input := false, err_guess := false, prev_guesses := [] }
      = (PlayOutcome.exhausted,
         { err_input := false, err_guess := false,
           prev_guesses :=
             [['D','R','I','V','E'], ['D','O','G','G','Y'], ['F','I','E','L','D'],
              ['D','A','D','D','Y'], ['C','A','N','D','Y']] }) := by
  have hknown : ∀ j : Nat,
      ([none, none, none, none, none] : List (Option Char)).getD j none = none := by
    intro j
    rcases j with _ | _ | _ | _ | _ | j <;> rfl
  refine ⟨?_, by decide, by decide⟩
  intro guess
  apply Bool.eq_false_iff.mpr
  intro h
  rw [guessViolatesKnown, List.any_eq_true] at h
  obtain ⟨p, hp, hcond⟩ := h
  rw [hknown p.1] at hcond
  exact Bool.noConfusion hcond

/-- C10: `GameEngine` instance state persists across `play` calls:
`prev_guesses` only ever grows (and never re-accepts a word already in
it), `err_guess` and `err_input` are never cleared by `play`, and a guess
recorded in an earlier game is rejected as a repeated guess — `err_guess`
set, round aborted before scoring — when the bot proposes it in a later
`play` call on the same instance. -/
theorem c10_engine_state_persists :
    (∀ (wordList : List Word) (twa : Option Word) (randomWord : Word)
        (bot : Nat → Word) (st : EngineState),
      ∃ tail : List Word,
        (play wordList twa randomWord bot st).2.prev_guesses
            = st.prev_guesses ++ tail ∧
        ∀ g ∈ tail, g ∉ st.prev_guesses) ∧
    (∀ (wordList : List Word) (twa : Option Word) (randomWord : Word)
        (bot : Nat → Word) (st : EngineState),
      st.err_guess = true →
        (play wordList twa randomWord bot st).2.err_guess = true) ∧
    (∀ (wordList : List Word) (twa : Option Word) (randomWord : Word)
        (bot : Nat → Word) (st : EngineState),
      st.err_input = true →
        (play wordList twa randomWord bot st).2.err_input = true) ∧
    (∀ (wordList : List Word) (t randomWord : Word) (bot : Nat → Word)
        (st : EngineState) (g : Word),
      g ∈ st.prev_guesses → bot 1 = g → g ∈ wordList →
      (t.map Char.toUpper) ∈ wordList →
      play wordList (some t) randomWord bot st
        = (PlayOutcome.guessError, { st with err_guess := true })) := by
  refine ⟨?_, ?_, ?_, ?_⟩
  · intro wordList twa randomWord bot st
    obtain ⟨tail, h1, _, h3, _, _⟩ := play_state wordList twa randomWord bot st
    exact ⟨tail, h1, h3⟩
  · intro wordList twa randomWord bot st h
    obtain ⟨_, _, _, _, _, h5⟩ := play_state wordList twa randomWord bot st
    exact h5 h
  · intro wordList twa randomWord bot st h
    obtain ⟨_, _, _, _, h4, _⟩ := play_state wordList twa randomWord bot st
    exact h4 h
  · intro wordList t randomWord bot st g hg hbot hgw htw
    have hrounds : List.range' 1 (MAX_GUESSES - 1) = [1, 2, 3, 4, 5] := rfl
    simp [play, playLoop, htw, hrounds, hbot, hg, hgw]

/-- Witness for C10: an engine that already recorded `ABCDE` rejects a
second game whose bot opens with `ABCDE`. -/
theorem c10_witness :
    play [['A','B','C','D','E']] (some ['A','B','C','D','E']) []
      (fun _ => ['A','B','C','D','E'])
      { err_input := false, err_guess := false,
        prev_guesses := [['A','B','C','D','E']] }
      = (PlayOutcome.guessError,
         { err_input := false, err_guess := true,
           prev_guesses := [['A','B','C','D','E']] }) :=
  c10_engine_state_persists.2.2.2 [['A','B','C','D','E']] ['A','B','C','D','E'] []
    (fun _ => ['A','B','C','D','E'])
    { err_input := false, err_guess := false,
      prev_guesses := [['A','B','C','D','E']] }
    ['A','B','C','D','E'] (by decide) rfl (by decide) (by decide)

end WordyPy

